import Mathlib

/-!
Verification of the background synchronization subsystem of the
satisfactory-logistics repository: the merge resolver
(`src/collaboration/mergeGameState.ts`), the outbound debounced push and
inbound subscription handlers (`syncManager.ts` / `useGameSubscription.ts`),
the store actions (`gameCollaborationActions.ts`) and the session refresh
scheduler (`AuthSessionManager.tsx`).

The TypeScript code is shallowly embedded: plain objects become structures,
the zustand store becomes an explicit state record threaded through the
handlers, JavaScript `Set`/object-map operations become list membership and
association lists, and timers become explicit pending-deadline fields driven
by an event step function.
-/

set_option autoImplicit false

namespace SatisfactoryLogistics

/-! ## Data model (snapshots exchanged with the remote store)

`Factory` and `SolverInstance` carry an `id` and an abstract `data` field
standing for all their remaining content (the merge and store code never
inspects anything but `id`). `SerializedGameData` is the `game` part of a
`SerializedGame` snapshot: its child-id list `factoriesIds`, its `name`, and
`meta` standing for the remaining scalar fields. -/

structure Factory where
  id : String
  data : String
deriving DecidableEq, Repr

structure SolverInstance where
  id : String
  data : String
deriving DecidableEq, Repr

structure SerializedGameData where
  name : String
  meta : String
  factoriesIds : List String
deriving DecidableEq, Repr

structure SerializedGame where
  game : SerializedGameData
  factories : List Factory
  solvers : List SolverInstance
deriving DecidableEq, Repr

/-! ## Merge resolver (`mergeGameState.ts`) -/

/-- Embedding of `mergeGameState(local, remote)`:
remote factories plus local-only factories; remote solvers plus local-only
solvers (those whose id is a local-only factory id and not already a remote
solver id); the game object is remote's with `factoriesIds` extended by the
local-only factory ids. JavaScript `Set.has` on ids is list membership
(`List.contains`). -/
def mergeGameState (loc rem : SerializedGame) : SerializedGame :=
  let remoteFactoryIds := rem.factories.map Factory.id
  let localOnlyFactories := loc.factories.filter
    (fun f => !(remoteFactoryIds.contains f.id))
  let localOnlyFactoryIds := localOnlyFactories.map Factory.id
  let localOnlySolvers := loc.solvers.filter
    (fun s => localOnlyFactoryIds.contains s.id)
  let mergedFactories := rem.factories ++ localOnlyFactories
  let remoteSolverIds := rem.solvers.map SolverInstance.id
  let mergedSolvers := rem.solvers ++
    localOnlySolvers.filter (fun s => !(remoteSolverIds.contains s.id))
  let mergedFactoryIds := rem.game.factoriesIds ++
    localOnlyFactories.map Factory.id
  { game := { rem.game with factoriesIds := mergedFactoryIds }
    factories := mergedFactories
    solvers := mergedSolvers }

/-- Embedding of `hasLocalChanges(local, remote)`. -/
def hasLocalChanges (loc rem : SerializedGame) : Bool :=
  let remoteFactoryIds := rem.factories.map Factory.id
  if loc.factories.any (fun f => !(remoteFactoryIds.contains f.id)) then true
  else if loc.factories.length ≠ rem.factories.length then true
  else false

/-- Embedding of `getLocalOnlyFactoryIds(local, remote)`. -/
def getLocalOnlyFactoryIds (loc rem : SerializedGame) : List String :=
  let remoteFactoryIds := rem.factories.map Factory.id
  (loc.factories.filter (fun f => !(remoteFactoryIds.contains f.id))).map
    Factory.id

/-! Concrete fixtures used by witnesses and counterexamples. -/

def fA : Factory := ⟨"a", "A"⟩
def fB : Factory := ⟨"b", "B"⟩
def fB' : Factory := ⟨"b", "Bp"⟩
def fC : Factory := ⟨"c", "C"⟩

def exLocal : SerializedGame :=
  { game := { name := "n", meta := "m", factoriesIds := ["a", "b"] }
    factories := [fA, fB]
    solvers := [] }

def exRemote : SerializedGame :=
  { game := { name := "n2", meta := "m2", factoriesIds := ["b", "c"] }
    factories := [fB', fC]
    solvers := [] }

/-! ## Shared state (zustand store)

The slices touched by the collaboration code: `state.games.games` (game id →
game record), `state.factories.factories` (factory id → factory),
`state.solvers.instances` (factory id → solver instance),
`state.games.selected` and `state.gameSave.isSaving`. JavaScript object maps
are embedded as association lists with last-write-wins assignment. -/

/-- A game record in `state.games.games`. `name`, `meta` and `factoriesIds`
are the fields also present in the serialized `game` object; `savedId`,
`authorId`, `shareToken`, `createdAt` and `version` are the local-authority /
sync bookkeeping fields handled specially by `applyRemoteGameUpdate`. -/
structure GameRecord where
  name : String
  meta : String
  factoriesIds : List String
  savedId : Option String
  authorId : String
  shareToken : Option String
  createdAt : String
  version : Option Nat
deriving DecidableEq, Repr

/-- Association-list lookup: `m[k]`. -/
def lookupA {α : Type} (m : List (String × α)) (k : String) : Option α :=
  match m.find? (fun p => p.1 == k) with
  | some p => some p.2
  | none => none

/-- Association-list deletion: `delete m[k]`. -/
def eraseA {α : Type} (m : List (String × α)) (k : String) :
    List (String × α) :=
  m.filter (fun p => !(p.1 == k))

/-- Association-list assignment: `m[k] = v`. -/
def insertA {α : Type} (m : List (String × α)) (k : String) (v : α) :
    List (String × α) :=
  eraseA m k ++ [(k, v)]

/-- The store slices the collaboration code reads and writes. -/
structure StoreState where
  games : List (String × GameRecord)
  factories : List (String × Factory)
  solvers : List (String × SolverInstance)
  selected : Option String
  isSaving : Bool
deriving DecidableEq, Repr

/-- Embedding of the `setGameVersion` action: sets `version` on the game
record when the game is present. -/
def setGameVersion (gameId : String) (version : Nat) (st : StoreState) :
    StoreState :=
  match lookupA st.games gameId with
  | some g =>
      { st with games := insertA st.games gameId { g with version := some version } }
  | none => st

/-- Embedding of the `setSyncingState` action: it only toggles the global
`gameSave.isSaving` flag (the `gameId` argument is unused by the body). -/
def setSyncingState (_gameId : String) (b : Bool) (st : StoreState) :
    StoreState :=
  { st with isSaving := b }

/-- The deletion pass at the start of `applyRemoteGameUpdate`: for each id in
the local game's `factoriesIds` that is not among the merged factory ids,
delete the factory and the solver instance under that id. -/
def clearStale (ids mergedIds : List String) (st : StoreState) : StoreState :=
  ids.foldl
    (fun acc fid =>
      if mergedIds.contains fid then acc
      else { acc with factories := eraseA acc.factories fid
                      solvers := eraseA acc.solvers fid })
    st

/-- The factory-insertion pass of `applyRemoteGameUpdate`. -/
def applyFactories (fs : List Factory) (st : StoreState) : StoreState :=
  fs.foldl (fun acc f => { acc with factories := insertA acc.factories f.id f })
    st

/-- The solver-insertion pass of `applyRemoteGameUpdate`. -/
def applySolvers (svs : List SolverInstance) (st : StoreState) : StoreState :=
  svs.foldl
    (fun acc sv => { acc with solvers := insertA acc.solvers sv.id sv }) st

/-- Embedding of the `applyRemoteGameUpdate(gameId, merged, version)` action
(`gameCollaborationActions.ts`): no-op when the game is absent; otherwise
delete local factories/solvers whose id is in the local game's
`factoriesIds` but not among `merged.factories` ids, replace the game record
with the spread `{...localGame, ...merged.game}` plus the preserved
local-only fields and the given `version`, then insert every merged factory
and every merged solver. -/
def applyRemoteGameUpdate (gameId : String) (merged : SerializedGame)
    (version : Nat) (st : StoreState) : StoreState :=
  match lookupA st.games gameId with
  | none => st
  | some localGame =>
    let mergedFactoryIds := merged.factories.map Factory.id
    let st1 := clearStale localGame.factoriesIds mergedFactoryIds st
    let newGame : GameRecord :=
      { name := merged.game.name
        meta := merged.game.meta
        factoriesIds := merged.game.factoriesIds
        savedId := localGame.savedId
        authorId := localGame.authorId
        shareToken := localGame.shareToken
        createdAt := localGame.createdAt
        version := some version }
    let st2 := { st1 with games := insertA st1.games gameId newGame }
    applySolvers merged.solvers (applyFactories merged.factories st2)

/-- Modelled from the spec: `serializeGame` (defined in
`gameFactoriesActions.ts`, which is not part of the provided sources)
produces an immutable, fully self-contained Snapshot of one aggregate plus
all its current child entities from shared local state: the game record's
serializable fields and, for each id in its child-identifier collection, the
factory and solver instance stored under that id. -/
def serializeGame (gameId : String) (st : StoreState) : SerializedGame :=
  match lookupA st.games gameId with
  | none =>
      { game := { name := "", meta := "", factoriesIds := [] }
        factories := []
        solvers := [] }
  | some g =>
      { game := { name := g.name, meta := g.meta, factoriesIds := g.factoriesIds }
        factories := g.factoriesIds.filterMap (fun fid => lookupA st.factories fid)
        solvers := g.factoriesIds.filterMap (fun fid => lookupA st.solvers fid) }

/-- Modelled from the spec: `removeGame` (defined in
`gameFactoriesActions.ts`, which is not part of the provided sources)
removes the aggregate and implicitly its children from local state: the game
record and the factories and solver instances listed in its
child-identifier collection. -/
def removeGame (gameId : String) (st : StoreState) : StoreState :=
  match lookupA st.games gameId with
  | none => st
  | some g =>
      { st with
        games := eraseA st.games gameId
        factories := g.factoriesIds.foldl eraseA st.factories
        solvers := g.factoriesIds.foldl eraseA st.solvers }

/-! ## Synchronization engine (`syncManager.ts`, `useGameSubscription.ts`)

`syncGameToRemote` is `debounce(body, SYNC_DEBOUNCE_MS)` from lodash: a
single debounced function with one shared timer and one latest-arguments
slot. The debounce object is embedded as `DebounceState`: `pending` holds
the latest call's argument together with the trailing-edge deadline; a new
call overwrites both, `cancel` clears them, and when the deadline is reached
the body runs once with the stored argument.

The network result of the Supabase `update(...).select('version')` call is
an input to the model: `Except String Nat` is either the error message or
the echoed `version`. -/

def SYNC_DEBOUNCE_MS : Nat := 1000

structure DebounceState where
  pending : Option (String × Nat)
deriving DecidableEq, Repr

/-- The process state the sync engine touches: the store, the single lodash
debounce object behind `syncGameToRemote`, the auth session (the signed-in
user's id when present), the log of `setSyncError` error messages (that
action only logs; it writes nothing into the store), and the log of game ids
for which an update was actually sent to the remote store. -/
structure SysState where
  store : StoreState
  deb : DebounceState
  session : Option String
  errorLog : List (String × String)
  pushLog : List String
deriving DecidableEq, Repr

/-- Embedding of the `setSyncError` action: logs the error; the store is not
modified (the body only calls `logger.error`). -/
def setSyncError (gameId : String) (err : Option String) (s : SysState) :
    SysState :=
  match err with
  | some msg => { s with errorLog := s.errorLog ++ [(gameId, msg)] }
  | none => s

/-- The body of `syncGameToRemote` (the function wrapped by `debounce`),
run when the debounce timer fires with `gameId` as the latest argument:
skip when the game is absent, unsaved, or there is no session; otherwise
send the update (recorded in `pushLog`) and, on error, set the sync error
and leave the game record alone; on success, set the game's `version` to the
value echoed back and clear the sync error. `setSyncingState` brackets the
attempt (`finally` clears it). -/
def syncGameToRemoteBody (gameId : String) (result : Except String Nat)
    (s : SysState) : SysState :=
  match lookupA s.store.games gameId with
  | none => s
  | some game =>
    match game.savedId with
    | none => s
    | some _ =>
      match s.session with
      | none => s
      | some _ =>
        let s1 := { s with store := setSyncingState gameId true s.store }
        let s2 := { s1 with pushLog := s1.pushLog ++ [gameId] }
        let s3 :=
          match result with
          | .error msg => setSyncError gameId (some msg) s2
          | .ok echoed =>
              setSyncError gameId none
                { s2 with store := setGameVersion gameId echoed s2.store }
        { s3 with store := setSyncingState gameId false s3.store }

/-- A call of the debounced `syncGameToRemote(gameId)`: store `gameId` as
the latest argument and reset the single shared trailing-edge timer to
`now + SYNC_DEBOUNCE_MS`. -/
def syncGameToRemoteCall (gameId : String) (now : Nat) (s : SysState) :
    SysState :=
  { s with deb := { pending := some (gameId, now + SYNC_DEBOUNCE_MS) } }

/-- The debounce timer firing at time `now`: when a pending invocation's
deadline has been reached, clear it and run the body with the stored
argument; otherwise nothing happens. -/
def debounceFire (now : Nat) (result : Except String Nat) (s : SysState) :
    SysState :=
  match s.deb.pending with
  | none => s
  | some (gid, d) =>
    if d ≤ now then syncGameToRemoteBody gid result { s with deb := { pending := none } }
    else s

/-- Embedding of `triggerSync(gameId?)`: resolve the target game id (the
argument, defaulting to the selected game) and call the debounced
`syncGameToRemote` only when the game exists and has a `savedId`. -/
def triggerSync (gameId : Option String) (now : Nat) (s : SysState) :
    SysState :=
  let target := match gameId with
    | some gid => some gid
    | none => s.store.selected
  match target with
  | none => s
  | some gid =>
    match lookupA s.store.games gid with
    | none => s
    | some game => if game.savedId.isSome then syncGameToRemoteCall gid now s else s

/-- Embedding of `cancelPendingSync()`: `syncGameToRemote.cancel()`, which
drops the pending invocation of the shared debounce timer. -/
def cancelPendingSync (s : SysState) : SysState :=
  { s with deb := { pending := none } }

/-- Embedding of `syncGameImmediately(gameId)`: cancel the pending debounce,
then run the push body immediately (same body as `syncGameToRemote`,
returning whether it succeeded). -/
def syncGameImmediately (gameId : String) (result : Except String Nat)
    (s : SysState) : SysState × Bool :=
  let s1 := cancelPendingSync s
  match lookupA s1.store.games gameId with
  | none => (s1, false)
  | some game =>
    match game.savedId with
    | none => (s1, false)
    | some _ =>
      match s1.session with
      | none => (s1, false)
      | some _ =>
        let s2 := { s1 with store := setSyncingState gameId true s1.store }
        let s3 := { s2 with pushLog := s2.pushLog ++ [gameId] }
        let (s4, ok) :=
          match result with
          | .error msg => (setSyncError gameId (some msg) s3, false)
          | .ok echoed =>
              (setSyncError gameId none
                { s3 with store := setGameVersion gameId echoed s3.store }, true)
        ({ s4 with store := setSyncingState gameId false s4.store }, ok)

/-- The `payload.new` row delivered by a "row updated" notification. -/
structure RemoteGameRow where
  id : String
  data : SerializedGame
  version : Nat
  author_id : String
deriving DecidableEq, Repr

/-- Embedding of `handleRemoteUpdate(gameId, remote)`
(`useGameSubscription.ts`): discard when the game is unknown or
`remote.version <= localVersion` (a missing local version reads as 1);
otherwise cancel the pending sync, merge the serialized local state with the
remote data and apply the merged result with `applyRemoteGameUpdate`. -/
def handleRemoteUpdate (gameId : String) (remote : RemoteGameRow)
    (s : SysState) : SysState :=
  match lookupA s.store.games gameId with
  | none => s
  | some localGame =>
    let localVersion := localGame.version.getD 1
    if remote.version ≤ localVersion then s
    else
      let s1 := cancelPendingSync s
      let localSerialized := serializeGame gameId s1.store
      let merged := mergeGameState localSerialized remote.data
      { s1 with store := applyRemoteGameUpdate gameId merged remote.version s1.store }

/-- Embedding of `handleRemoteDelete(gameId)`: when the game is present, a
session exists and the current user is not the author, remove the game
(and its children) from local state; otherwise do nothing. -/
def handleRemoteDelete (gameId : String) (s : SysState) : SysState :=
  match lookupA s.store.games gameId with
  | none => s
  | some game =>
    match s.session with
    | none => s
    | some uid =>
      if game.authorId ≠ uid then { s with store := removeGame gameId s.store }
      else s

/-! ## Session continuity scheduler (`AuthSessionManager.tsx`)

`scheduleTokenRefresh(expiresAt)` clears the timeout stored in
`refreshTimeoutRef` and schedules a new one after
`max((expiresAt − now) * 1000 − REFRESH_MARGIN_MS, 0)` milliseconds. To make
"the old timer does not also fire" provable rather than built into the
model, live timeouts are kept as a list of (handle, absolute deadline in
ms) pairs: `setTimeout` appends a fresh handle, `clearTimeout h` removes
`h`, and the runtime may only fire a handle that is still in the list. Times
are `now` in seconds and deadlines in milliseconds, as in the source. -/

def REFRESH_MARGIN_MS : Nat := 5 * 60 * 1000

structure AuthState where
  timers : List (Nat × Nat)
  currentRef : Option Nat
  nextId : Nat
deriving DecidableEq, Repr

def initAuth : AuthState := { timers := [], currentRef := none, nextId := 0 }

/-- `clearTimeout(refreshTimeoutRef.current)` when the ref is set. -/
def clearCurrentTimeout (s : AuthState) : AuthState :=
  match s.currentRef with
  | some h => { s with timers := s.timers.filter (fun p => p.1 ≠ h) }
  | none => s

/-- The delay computed by `scheduleTokenRefresh`:
`Math.max((expiresAt − now) * 1000 − REFRESH_MARGIN_MS, 0)` (ms), with `now`
and `expiresAt` in seconds. -/
def refreshDelay (now expiresAt : Nat) : Nat :=
  (max (((expiresAt : Int) - (now : Int)) * 1000 - (REFRESH_MARGIN_MS : Int)) 0).toNat

/-- Embedding of `scheduleTokenRefresh(expiresAt)` at current time `now`
(seconds): clear any existing timeout, then set a fresh timeout due at
`now * 1000 + refreshDelay now expiresAt` and store its handle in the ref. -/
def scheduleTokenRefresh (now expiresAt : Nat) (s : AuthState) : AuthState :=
  let s1 := clearCurrentTimeout s
  { timers := s1.timers ++ [(s1.nextId, now * 1000 + refreshDelay now expiresAt)]
    currentRef := some s1.nextId
    nextId := s1.nextId + 1 }

/-- The refresh timeout with handle `h` firing at time `now` (seconds): it
can only fire while still live and due, it is consumed, and the callback
runs `refreshSession()`; on success (`result = some newExpiresAt`) the new
session is observed and `scheduleTokenRefresh` runs again; on failure
(`result = none`) nothing is rescheduled. -/
def fireRefresh (now h : Nat) (result : Option Nat) (s : AuthState) :
    AuthState :=
  match s.timers.find? (fun p => p.1 == h) with
  | none => s
  | some (_, d) =>
    if d ≤ now * 1000 then
      let s1 := { s with timers := s.timers.filter (fun p => p.1 ≠ h) }
      match result with
      | some newExpiresAt => scheduleTokenRefresh now newExpiresAt s1
      | none => s1
    else s

/-- The `SIGNED_OUT` branch of the auth-state-change handler: clear the
refresh timeout. -/
def authSignOut (s : AuthState) : AuthState :=
  clearCurrentTimeout s

/-- The events that drive the scheduler: a session with a known expiry being
observed (initial `getSession`, `SIGNED_IN`, `TOKEN_REFRESHED`), a live
refresh timeout firing (with the refresh outcome), and sign-out. -/
inductive AuthEvent where
  | observe (now expiresAt : Nat)
  | fire (now h : Nat) (result : Option Nat)
  | signOut
deriving DecidableEq, Repr

def authStep (s : AuthState) (e : AuthEvent) : AuthState :=
  match e with
  | .observe now expiresAt => scheduleTokenRefresh now expiresAt s
  | .fire now h result => fireRefresh now h result s
  | .signOut => authSignOut s

def runAuth (s : AuthState) (evs : List AuthEvent) : AuthState :=
  evs.foldl authStep s

/-- The single-timer invariant: every live timeout is the one held in
`refreshTimeoutRef`, there is at most one of them, and live handles are
older than the next fresh handle. -/
def authInv (s : AuthState) : Prop :=
  s.timers.length ≤ 1 ∧
    ∀ p ∈ s.timers, s.currentRef = some p.1 ∧ p.1 < s.nextId

/-! Concrete store fixtures used by witnesses and counterexamples. -/

def lgC5 : GameRecord :=
  { name := "g", meta := "gm", factoriesIds := ["f1"], savedId := some "r1"
    authorId := "u1", shareToken := some "tok", createdAt := "t0"
    version := some 1 }

def stC5 : StoreState :=
  { games := [("g1", lgC5)]
    factories := [("f1", ⟨"f1", "F1"⟩)]
    solvers := [("f1", ⟨"f1", "S1"⟩)]
    selected := some "g1"
    isSaving := false }

/-- A merged snapshot that dropped factory `f1` but still carries a solver
with id `f1` (as the merge resolver can produce when the remote snapshot has
a solver without a matching factory). -/
def mergedC5 : SerializedGame :=
  { game := { name := "g2", meta := "gm2", factoriesIds := [] }
    factories := []
    solvers := [⟨"f1", "SX"⟩] }

/-- A merged snapshot that dropped factory `f1` and carries no solver. -/
def mergedC5w : SerializedGame :=
  { game := { name := "g2", meta := "gm2", factoriesIds := [] }
    factories := []
    solvers := [] }

/-- A process state around `stC5` with a pending debounced push. -/
def sysC5 : SysState :=
  { store := stC5
    deb := { pending := some ("g1", 1000) }
    session := some "u1"
    errorLog := []
    pushLog := [] }

/-- A stale inbound row: version 1, not above the local version 1. -/
def rowStale : RemoteGameRow :=
  { id := "r1", data := exRemote, version := 1, author_id := "u2" }

/-- A fresh inbound row: version 2, above the local version 1. -/
def rowFresh : RemoteGameRow :=
  { id := "r1", data := exRemote, version := 2, author_id := "u2" }

def gA : GameRecord :=
  { name := "A", meta := "", factoriesIds := [], savedId := some "rA"
    authorId := "u1", shareToken := none, createdAt := "t"
    version := some 1 }

def gB : GameRecord :=
  { name := "B", meta := "", factoriesIds := [], savedId := some "rB"
    authorId := "u1", shareToken := none, createdAt := "t"
    version := some 1 }

/-- A process state with two saved games and no pending push. -/
def sysC1 : SysState :=
  { store := { games := [("A", gA), ("B", gB)], factories := []
               solvers := [], selected := none, isSaving := false }
    deb := { pending := none }
    session := some "u1"
    errorLog := []
    pushLog := [] }

/-- `sysC5` with a different signed-in user than the game's author. -/
def sysC8 : SysState :=
  { store := stC5
    deb := { pending := none }
    session := some "u9"
    errorLog := []
    pushLog := [] }

/-! ## Association-list lemmas -/

theorem lookupA_nil {α : Type} (k : String) :
    lookupA ([] : List (String × α)) k = none := rfl

theorem lookupA_cons {α : Type} (p : String × α) (t : List (String × α))
    (k : String) :
    lookupA (p :: t) k = if p.1 = k then some p.2 else lookupA t k := by
  by_cases h : p.1 = k
  · have hb : (p.1 == k) = true := by simp [h]
    simp [lookupA, List.find?, hb, h]
  · have hb : (p.1 == k) = false := by simp [h]
    simp [lookupA, List.find?, hb, h]

theorem eraseA_cons {α : Type} (p : String × α) (t : List (String × α))
    (k : String) :
    eraseA (p :: t) k = if p.1 = k then eraseA t k else p :: eraseA t k := by
  by_cases h : p.1 = k
  · have hb : (p.1 == k) = true := by simp [h]
    simp [eraseA, List.filter, hb, h]
  · have hb : (p.1 == k) = false := by simp [h]
    simp [eraseA, List.filter, hb, h]

theorem lookupA_append {α : Type} (m₁ m₂ : List (String × α)) (k : String) :
    lookupA (m₁ ++ m₂) k =
      match lookupA m₁ k with
      | some v => some v
      | none => lookupA m₂ k := by
  induction m₁ with
  | nil => simp [lookupA_nil]
  | cons p t ih =>
    by_cases h : p.1 = k <;> simp [lookupA_cons, h, ih]

theorem lookupA_eraseA_self {α : Type} (m : List (String × α)) (k : String) :
    lookupA (eraseA m k) k = none := by
  induction m with
  | nil => rfl
  | cons p t ih =>
    by_cases h : p.1 = k <;> simp [eraseA_cons, h, lookupA_cons, ih]

theorem lookupA_eraseA_ne {α : Type} (m : List (String × α)) (k k' : String)
    (h : k' ≠ k) : lookupA (eraseA m k) k' = lookupA m k' := by
  induction m with
  | nil => rfl
  | cons p t ih =>
    by_cases hp : p.1 = k
    · have hne : p.1 ≠ k' := fun e => h (by rw [← e, hp])
      simp [eraseA_cons, hp, lookupA_cons, hne, ih, h.symm]
    · by_cases hp' : p.1 = k' <;>
        simp [eraseA_cons, hp, lookupA_cons, hp', ih, h]

theorem lookupA_insertA_self {α : Type} (m : List (String × α)) (k : String)
    (v : α) : lookupA (insertA m k v) k = some v := by
  simp [insertA, lookupA_append, lookupA_eraseA_self, lookupA_cons]

theorem lookupA_insertA_ne {α : Type} (m : List (String × α)) (k k' : String)
    (v : α) (h : k' ≠ k) : lookupA (insertA m k v) k' = lookupA m k' := by
  rw [insertA, lookupA_append, lookupA_eraseA_ne m k k' h]
  cases hm : lookupA m k' with
  | none => simp [lookupA_cons, Ne.symm h, lookupA_nil]
  | some v' => simp

theorem lookupA_eraseA_none {α : Type} (m : List (String × α)) (k k' : String)
    (h : lookupA m k' = none) : lookupA (eraseA m k) k' = none := by
  by_cases hk : k' = k
  · rw [hk]; exact lookupA_eraseA_self m k
  · rw [lookupA_eraseA_ne m k k' hk]; exact h

theorem foldl_eraseA_none {α : Type} (ids : List String)
    (m : List (String × α)) (fid : String) (h : lookupA m fid = none) :
    lookupA (ids.foldl eraseA m) fid = none := by
  induction ids generalizing m with
  | nil => exact h
  | cons i t ih => exact ih (eraseA m i) (lookupA_eraseA_none m i fid h)

theorem foldl_eraseA_mem {α : Type} (ids : List String)
    (m : List (String × α)) (fid : String) (h : fid ∈ ids) :
    lookupA (ids.foldl eraseA m) fid = none := by
  induction ids generalizing m with
  | nil => cases h
  | cons i t ih =>
    rcases List.mem_cons.mp h with h1 | h2
    · subst h1
      exact foldl_eraseA_none t (eraseA m fid) fid (lookupA_eraseA_self m fid)
    · exact ih (eraseA m i) h2

/-! ## Lemmas about the `applyRemoteGameUpdate` passes -/

theorem clearStale_nil (mids : List String) (st : StoreState) :
    clearStale [] mids st = st := rfl

theorem clearStale_cons_pos (i : String) (t mids : List String)
    (st : StoreState) (h : mids.contains i = true) :
    clearStale (i :: t) mids st = clearStale t mids st := by
  have hm : i ∈ mids := List.elem_iff.mp h
  simp [clearStale, List.foldl, hm]

theorem clearStale_cons_neg (i : String) (t mids : List String)
    (st : StoreState) (h : mids.contains i = false) :
    clearStale (i :: t) mids st =
      clearStale t mids
        { st with factories := eraseA st.factories i
                  solvers := eraseA st.solvers i } := by
  have hm : ¬ (i ∈ mids) := fun hmem => by simp_all
  simp [clearStale, List.foldl, hm]

theorem clearStale_games (ids mids : List String) (st : StoreState) :
    (clearStale ids mids st).games = st.games := by
  induction ids generalizing st with
  | nil => rfl
  | cons i t ih =>
    cases hc : mids.contains i
    · rw [clearStale_cons_neg i t mids st hc]; exact ih _
    · rw [clearStale_cons_pos i t mids st hc]; exact ih _

theorem clearStale_fac_none (ids mids : List String) (st : StoreState)
    (fid : String) (h : lookupA st.factories fid = none) :
    lookupA (clearStale ids mids st).factories fid = none := by
  induction ids generalizing st with
  | nil => exact h
  | cons i t ih =>
    cases hc : mids.contains i
    · rw [clearStale_cons_neg i t mids st hc]
      exact ih _ (lookupA_eraseA_none st.factories i fid h)
    · rw [clearStale_cons_pos i t mids st hc]
      exact ih st h

theorem clearStale_sol_none (ids mids : List String) (st : StoreState)
    (fid : String) (h : lookupA st.solvers fid = none) :
    lookupA (clearStale ids mids st).solvers fid = none := by
  induction ids generalizing st with
  | nil => exact h
  | cons i t ih =>
    cases hc : mids.contains i
    · rw [clearStale_cons_neg i t mids st hc]
      exact ih _ (lookupA_eraseA_none st.solvers i fid h)
    · rw [clearStale_cons_pos i t mids st hc]
      exact ih st h

theorem clearStale_fac_mem (ids mids : List String) (st : StoreState)
    (fid : String) (hmem : fid ∈ ids) (hnot : mids.contains fid = false) :
    lookupA (clearStale ids mids st).factories fid = none := by
  induction ids generalizing st with
  | nil => cases hmem
  | cons i t ih =>
    rcases List.mem_cons.mp hmem with h1 | h2
    · subst h1
      rw [clearStale_cons_neg fid t mids st hnot]
      exact clearStale_fac_none t mids _ fid (lookupA_eraseA_self st.factories fid)
    · cases hc : mids.contains i
      · rw [clearStale_cons_neg i t mids st hc]; exact ih _ h2
      · rw [clearStale_cons_pos i t mids st hc]; exact ih st h2

theorem clearStale_sol_mem (ids mids : List String) (st : StoreState)
    (fid : String) (hmem : fid ∈ ids) (hnot : mids.contains fid = false) :
    lookupA (clearStale ids mids st).solvers fid = none := by
  induction ids generalizing st with
  | nil => cases hmem
  | cons i t ih =>
    rcases List.mem_cons.mp hmem with h1 | h2
    · subst h1
      rw [clearStale_cons_neg fid t mids st hnot]
      exact clearStale_sol_none t mids _ fid (lookupA_eraseA_self st.solvers fid)
    · cases hc : mids.contains i
      · rw [clearStale_cons_neg i t mids st hc]; exact ih _ h2
      · rw [clearStale_cons_pos i t mids st hc]; exact ih st h2

theorem applyFactories_cons (f : Factory) (t : List Factory) (st : StoreState) :
    applyFactories (f :: t) st =
      applyFactories t { st with factories := insertA st.factories f.id f } := rfl

theorem applyFactories_games (fs : List Factory) (st : StoreState) :
    (applyFactories fs st).games = st.games := by
  induction fs generalizing st with
  | nil => rfl
  | cons f t ih => rw [applyFactories_cons]; simp [ih]

theorem applyFactories_solvers (fs : List Factory) (st : StoreState) :
    (applyFactories fs st).solvers = st.solvers := by
  induction fs generalizing st with
  | nil => rfl
  | cons f t ih => rw [applyFactories_cons]; simp [ih]

theorem applyFactories_fac_ne (fs : List Factory) (st : StoreState)
    (fid : String) (h : ∀ f ∈ fs, f.id ≠ fid) :
    lookupA (applyFactories fs st).factories fid = lookupA st.factories fid := by
  induction fs generalizing st with
  | nil => rfl
  | cons f t ih =>
    rw [applyFactories_cons]
    rw [ih _ (fun g hg => h g (List.mem_cons_of_mem f hg))]
    exact lookupA_insertA_ne st.factories f.id fid f
      (fun e => h f (List.mem_cons_self f t) e.symm)

theorem applySolvers_cons (sv : SolverInstance) (t : List SolverInstance)
    (st : StoreState) :
    applySolvers (sv :: t) st =
      applySolvers t { st with solvers := insertA st.solvers sv.id sv } := rfl

theorem applySolvers_games (svs : List SolverInstance) (st : StoreState) :
    (applySolvers svs st).games = st.games := by
  induction svs generalizing st with
  | nil => rfl
  | cons sv t ih => rw [applySolvers_cons]; simp [ih]

theorem applySolvers_factories (svs : List SolverInstance) (st : StoreState) :
    (applySolvers svs st).factories = st.factories := by
  induction svs generalizing st with
  | nil => rfl
  | cons sv t ih => rw [applySolvers_cons]; simp [ih]

theorem applySolvers_sol_ne (svs : List SolverInstance) (st : StoreState)
    (fid : String) (h : ∀ sv ∈ svs, sv.id ≠ fid) :
    lookupA (applySolvers svs st).solvers fid = lookupA st.solvers fid := by
  induction svs generalizing st with
  | nil => rfl
  | cons sv t ih =>
    rw [applySolvers_cons]
    rw [ih _ (fun u hu => h u (List.mem_cons_of_mem sv hu))]
    exact lookupA_insertA_ne st.solvers sv.id fid sv
      (fun e => h sv (List.mem_cons_self sv t) e.symm)

/-! ## Merge resolver lemmas and claims -/

theorem mergeGameState_mem_factories (loc rem : SerializedGame) (f : Factory) :
    f ∈ (mergeGameState loc rem).factories ↔
      f ∈ rem.factories ∨
        (f ∈ loc.factories ∧ f.id ∉ rem.factories.map Factory.id) := by
  simp [mergeGameState, List.mem_filter, List.elem_iff]

theorem mergeGameState_mem_solvers (loc rem : SerializedGame)
    (sv : SolverInstance) :
    sv ∈ (mergeGameState loc rem).solvers ↔
      sv ∈ rem.solvers ∨
        (sv ∈ loc.solvers ∧
          sv.id ∈ (loc.factories.filter
            (fun f => !((rem.factories.map Factory.id).contains f.id))).map
              Factory.id ∧
          sv.id ∉ rem.solvers.map SolverInstance.id) := by
  simp [mergeGameState, List.mem_filter, List.elem_iff]
  tauto

/-- C9: `merge(x, x) = x` — merging a snapshot with itself is a no-op on the
factories, the solvers, the ordered child-identifier list and the game
scalar fields. -/
theorem mergeGameState_idempotent (x : SerializedGame) :
    mergeGameState x x = x := by
  have h1 : x.factories.filter
      (fun f => !((x.factories.map Factory.id).contains f.id)) = [] := by
    rw [List.filter_eq_nil_iff]
    intro f hf
    simp [List.elem_iff, List.mem_map]
    exact ⟨f, hf, rfl⟩
  cases x with
  | mk g fs svs =>
    simp only [mergeGameState]
    rw [h1]
    simp

/-- C4: the factory collection of `merge(local, remote)` is, as a set, the
union of remote's factories with the local factories whose id does not occur
in remote; concretely, for local `[A, B]` and remote `[B', C]` (with `B` and
`B'` sharing an id) the merged factories are exactly `{A, B', C}` — `A`
preserved unchanged, `B` replaced wholesale by `B'`, `C` added. -/
theorem merge_factories_union_law :
    (∀ loc rem : SerializedGame, ∀ f : Factory,
      f ∈ (mergeGameState loc rem).factories ↔
        f ∈ rem.factories ∨
          (f ∈ loc.factories ∧ f.id ∉ rem.factories.map Factory.id)) ∧
    (mergeGameState exLocal exRemote).factories = [fB', fC, fA] ∧
    (∀ f : Factory, f ∈ (mergeGameState exLocal exRemote).factories ↔
      (f = fA ∨ f = fB' ∨ f = fC)) := by
  refine ⟨mergeGameState_mem_factories, by decide, ?_⟩
  intro f
  rw [show (mergeGameState exLocal exRemote).factories = [fB', fC, fA] by decide]
  simp
  tauto

/-- C10: a solver present only in `local.solvers` (no remote solver carries
its id) is kept by `merge(local, remote)` exactly when its id is the id of a
local factory that is itself local-only; in particular, when a factory with
that id exists in `remote.factories`, the local-only solver is dropped. -/
theorem merge_localOnly_solver_kept_iff (loc rem : SerializedGame)
    (sv : SolverInstance) (hloc : sv ∈ loc.solvers)
    (hrem : ∀ t ∈ rem.solvers, t.id ≠ sv.id) :
    sv ∈ (mergeGameState loc rem).solvers ↔
      ∃ f ∈ loc.factories, f.id = sv.id ∧
        sv.id ∉ rem.factories.map Factory.id := by
  rw [mergeGameState_mem_solvers]
  constructor
  · rintro (h | ⟨-, hmem, -⟩)
    · exact absurd rfl (hrem sv h)
    · rcases List.mem_map.mp hmem with ⟨f, hf, hid⟩
      rcases List.mem_filter.mp hf with ⟨hfl, hp⟩
      refine ⟨f, hfl, hid, ?_⟩
      intro hin
      rw [hid] at hp
      simp_all
  · rintro ⟨f, hfl, hid, hnot⟩
    refine Or.inr ⟨hloc, ?_, ?_⟩
    · refine List.mem_map.mpr ⟨f, List.mem_filter.mpr ⟨hfl, ?_⟩, hid⟩
      have : f.id ∉ rem.factories.map Factory.id := by rw [hid]; exact hnot
      simp [List.elem_iff, this]
    · intro hin
      rcases List.mem_map.mp hin with ⟨t, ht, htid⟩
      exact hrem t ht htid

/-- Witness for C10 at a concrete input: a local-only solver whose factory is
local-only is kept. -/
theorem merge_localOnly_solver_kept_iff_witness :
    (⟨"a", "SA"⟩ : SolverInstance) ∈
        ({ game := { name := "n", meta := "m", factoriesIds := ["a"] }
           factories := [fA]
           solvers := [⟨"a", "SA"⟩] } : SerializedGame).solvers ∧
      (∀ t ∈ (exRemote).solvers, t.id ≠ "a") ∧
      (⟨"a", "SA"⟩ : SolverInstance) ∈
        (mergeGameState
          { game := { name := "n", meta := "m", factoriesIds := ["a"] }
            factories := [fA]
            solvers := [⟨"a", "SA"⟩] } exRemote).solvers := by
  refine ⟨by decide, by decide, ?_⟩
  rw [merge_localOnly_solver_kept_iff _ _ _ (by decide) (by decide)]
  decide

/-! ## `applyRemoteGameUpdate` claims -/

theorem contains_eq_false_of_not_mem (l : List String) (a : String)
    (h : a ∉ l) : l.contains a = false := by
  cases hh : l.contains a
  · rfl
  · exact absurd (List.elem_iff.mp hh) h

/-- C5 (amended): for every call to `applyRemoteGameUpdate` with the game
present, the resulting game record preserves the local `savedId`,
`authorId`, `shareToken` and `createdAt`, takes its other scalar fields and
child-id list from the merged snapshot, and has `version` set to the given
value; every factory whose id is in the local child list but absent from the
merged factories is deleted, and the solver under such an id is deleted
provided no merged solver carries that id (merged solvers are re-inserted
after the deletion pass). -/
theorem applyRemoteGameUpdate_frame (st : StoreState) (gameId : String)
    (merged : SerializedGame) (version : Nat) (localGame : GameRecord)
    (h : lookupA st.games gameId = some localGame) :
    lookupA (applyRemoteGameUpdate gameId merged version st).games gameId =
      some { name := merged.game.name
             meta := merged.game.meta
             factoriesIds := merged.game.factoriesIds
             savedId := localGame.savedId
             authorId := localGame.authorId
             shareToken := localGame.shareToken
             createdAt := localGame.createdAt
             version := some version } ∧
    ∀ fid ∈ localGame.factoriesIds, fid ∉ merged.factories.map Factory.id →
      lookupA (applyRemoteGameUpdate gameId merged version st).factories fid
          = none ∧
      ((∀ sv ∈ merged.solvers, sv.id ≠ fid) →
        lookupA (applyRemoteGameUpdate gameId merged version st).solvers fid
          = none) := by
  simp only [applyRemoteGameUpdate, h]
  constructor
  · rw [applySolvers_games, applyFactories_games]
    exact lookupA_insertA_self _ _ _
  · intro fid hmem hnot
    have hc : (merged.factories.map Factory.id).contains fid = false :=
      contains_eq_false_of_not_mem _ _ hnot
    have hfar : ∀ f ∈ merged.factories, f.id ≠ fid := by
      intro f hf he
      exact hnot (List.mem_map.mpr ⟨f, hf, he⟩)
    constructor
    · rw [applySolvers_factories, applyFactories_fac_ne _ _ fid hfar]
      exact clearStale_fac_mem _ _ st fid hmem hc
    · intro hsv
      rw [applySolvers_sol_ne _ _ fid hsv, applyFactories_solvers]
      exact clearStale_sol_mem _ _ st fid hmem hc

/-- Witness for C5's amended theorem at a concrete input. -/
theorem applyRemoteGameUpdate_frame_witness :
    lookupA (applyRemoteGameUpdate "g1" mergedC5w 2 stC5).games "g1" =
      some { name := "g2", meta := "gm2", factoriesIds := []
             savedId := some "r1", authorId := "u1", shareToken := some "tok"
             createdAt := "t0", version := some 2 } :=
  (applyRemoteGameUpdate_frame stC5 "g1" mergedC5w 2 lgC5 (by decide)).1

/-- Counterexample to C5 as stated: when the merged snapshot still carries a
solver with id `f1` while factory `f1` was dropped, the solver is deleted by
the deletion pass but re-inserted by the solver-insertion pass, so it is not
deleted from shared state. -/
theorem applyRemoteGameUpdate_solver_not_deleted :
    "f1" ∈ lgC5.factoriesIds ∧
    "f1" ∉ mergedC5.factories.map Factory.id ∧
    lookupA (applyRemoteGameUpdate "g1" mergedC5 2 stC5).solvers "f1" =
      some ⟨"f1", "SX"⟩ := by
  decide

/-! ## Inbound path claims -/

/-- C3: an inbound "row updated" notification for a game present in local
state is discarded — leaving the whole process state unchanged — whenever
its version is at most the local version (a missing local version reads
as 1); when its version is strictly greater, the new state is exactly one
application of the merge resolver routed through `applyRemoteGameUpdate`. -/
theorem handleRemoteUpdate_version_gate (s : SysState) (gameId : String)
    (remote : RemoteGameRow) (localGame : GameRecord)
    (h : lookupA s.store.games gameId = some localGame) :
    (remote.version ≤ localGame.version.getD 1 →
      handleRemoteUpdate gameId remote s = s) ∧
    (localGame.version.getD 1 < remote.version →
      handleRemoteUpdate gameId remote s =
        { cancelPendingSync s with
          store := applyRemoteGameUpdate gameId
            (mergeGameState (serializeGame gameId s.store) remote.data)
            remote.version s.store }) := by
  constructor
  · intro hle
    simp only [handleRemoteUpdate, h]
    rw [if_pos hle]
  · intro hlt
    simp only [handleRemoteUpdate, h]
    rw [if_neg (not_le.mpr hlt)]
    rfl

/-- Witness for C3 at a concrete input: a duplicate of the current version
is discarded and the state is byte-identical. -/
theorem handleRemoteUpdate_version_gate_witness :
    handleRemoteUpdate "g1" rowStale sysC5 = sysC5 :=
  (handleRemoteUpdate_version_gate sysC5 "g1" rowStale lgC5 (by decide)).1
    (by decide)

/-- C2: when a push is pending and an inbound update with a strictly higher
version is handled for a game present in local state, the pending push is
cancelled, the store afterwards is exactly the merge result routed through
`applyRemoteGameUpdate`, and any later firing of the debounce timer is a
no-op — the cancelled push never fires and never overwrites the merge. -/
theorem inbound_merge_cancels_pending_push (s : SysState) (gameId : String)
    (remote : RemoteGameRow) (localGame : GameRecord) (pd : String × Nat)
    (h : lookupA s.store.games gameId = some localGame)
    (hpend : s.deb.pending = some pd)
    (hlt : localGame.version.getD 1 < remote.version) :
    (handleRemoteUpdate gameId remote s).deb.pending = none ∧
    (handleRemoteUpdate gameId remote s).store =
      applyRemoteGameUpdate gameId
        (mergeGameState (serializeGame gameId s.store) remote.data)
        remote.version s.store ∧
    (∀ now result,
      debounceFire now result (handleRemoteUpdate gameId remote s) =
        handleRemoteUpdate gameId remote s) := by
  have heq : handleRemoteUpdate gameId remote s =
      { cancelPendingSync s with
        store := applyRemoteGameUpdate gameId
          (mergeGameState (serializeGame gameId s.store) remote.data)
          remote.version s.store } := by
    simp only [handleRemoteUpdate, h]
    rw [if_neg (not_le.mpr hlt)]
    rfl
  refine ⟨?_, ?_, ?_⟩
  · rw [heq]
    rfl
  · rw [heq]
  · intro now result
    rw [heq]
    rfl

/-- Witness for C2 at a concrete input. -/
theorem inbound_merge_cancels_pending_push_witness :
    (handleRemoteUpdate "g1" rowFresh sysC5).deb.pending = none ∧
    debounceFire 2000 (.ok 7) (handleRemoteUpdate "g1" rowFresh sysC5) =
      handleRemoteUpdate "g1" rowFresh sysC5 := by
  have h := inbound_merge_cancels_pending_push sysC5 "g1" rowFresh lgC5
    ("g1", 1000) (by decide) rfl (by decide)
  exact ⟨h.1, h.2.2 2000 (.ok 7)⟩

/-! ## Outbound push claims -/

/-- C6 (amended): when the remote update of a push returns an error, the
error is surfaced only by handing it to `setSyncError`, which logs it and
stores no per-aggregate error field — the `games` map (and with it the
game's `version`) is left entirely unchanged, so the next push targets the
same version again; only on success is the game's `version` set to the
value the remote echoes back. The same holds for `syncGameImmediately`. -/
theorem push_error_leaves_version (s : SysState) (gameId : String)
    (game : GameRecord) (sid uid msg : String) (v : Nat)
    (h : lookupA s.store.games gameId = some game)
    (hsaved : game.savedId = some sid)
    (hsess : s.session = some uid) :
    ((syncGameToRemoteBody gameId (.error msg) s).store.games =
        s.store.games ∧
      (syncGameToRemoteBody gameId (.error msg) s).errorLog =
        s.errorLog ++ [(gameId, msg)]) ∧
    lookupA (syncGameToRemoteBody gameId (.ok v) s).store.games gameId =
      some { game with version := some v } ∧
    (syncGameImmediately gameId (.error msg) s).1.store.games =
      s.store.games ∧
    lookupA (syncGameImmediately gameId (.ok v) s).1.store.games gameId =
      some { game with version := some v } := by
  have hsv : lookupA (setSyncingState gameId true s.store).games gameId =
      some game := h
  refine ⟨⟨?_, ?_⟩, ?_, ?_, ?_⟩
  · simp only [syncGameToRemoteBody, h, hsaved, hsess, setSyncError,
      setSyncingState]
  · simp only [syncGameToRemoteBody, h, hsaved, hsess, setSyncError]
  · simp only [syncGameToRemoteBody, h, hsaved, hsess, setSyncError,
      setGameVersion, hsv]
    exact lookupA_insertA_self _ _ _
  · simp only [syncGameImmediately, cancelPendingSync, h, hsaved, hsess,
      setSyncError, setSyncingState]
  · simp only [syncGameImmediately, cancelPendingSync, h, hsaved, hsess,
      setSyncError, setGameVersion, hsv]
    exact lookupA_insertA_self _ _ _

/-- Witness for C6's amended theorem at a concrete input. -/
theorem push_error_leaves_version_witness :
    (syncGameToRemoteBody "g1" (.error "boom") sysC5).store.games =
      sysC5.store.games :=
  ((push_error_leaves_version sysC5 "g1" lgC5 "r1" "u1" "boom" 2
    (by decide) rfl rfl).1).1

/-- Counterexample to C6 as stated: a failed push leaves the entire shared
store byte-identical — no per-aggregate sync error is set anywhere in shared
state; the message only reaches the log of the `setSyncError` action. -/
theorem push_error_sets_no_state :
    (syncGameToRemoteBody "g1" (.error "boom") sysC5).store = sysC5.store ∧
    (syncGameToRemoteBody "g1" (.error "boom") sysC5).errorLog =
      [("g1", "boom")] := by
  decide

/-! ## Debounce timer claims -/

/-- C1 (amended): the delayed-push timer is a single process-wide debounce
shared by all aggregates, not a per-aggregate timer: any `triggerSync` call
for a saved game replaces the pending invocation (argument and deadline)
wholesale — so a call for aggregate B inside aggregate A's quiet window
cancels A's pending push — and when the timer fires, the push runs once,
for the argument of the most recent call only. -/
theorem triggerSync_global_debounce :
    (∀ (s : SysState) (gameId : String) (game : GameRecord) (now : Nat),
      lookupA s.store.games gameId = some game →
      game.savedId.isSome = true →
      (triggerSync (some gameId) now s).deb.pending =
        some (gameId, now + SYNC_DEBOUNCE_MS)) ∧
    (∀ (s : SysState) (gid : String) (d now : Nat)
        (result : Except String Nat),
      s.deb.pending = some (gid, d) → d ≤ now →
      debounceFire now result s =
        syncGameToRemoteBody gid result (cancelPendingSync s)) := by
  constructor
  · intro s gameId game now h hsaved
    simp only [triggerSync, h, hsaved, syncGameToRemoteCall]
    rfl
  · intro s gid d now result hpend hle
    simp only [debounceFire, hpend]
    rw [if_pos hle]
    rfl

/-- Witness for C1's amended theorem at a concrete input: a call for `B`
while `A`'s push is pending replaces the pending invocation. -/
theorem triggerSync_global_debounce_witness :
    (triggerSync (some "B") 500 (triggerSync (some "A") 0 sysC1)).deb.pending
      = some ("B", 500 + SYNC_DEBOUNCE_MS) :=
  triggerSync_global_debounce.1 (triggerSync (some "A") 0 sysC1) "B" gB 500
    (by decide) (by decide)

/-- Counterexample to C1 as stated: with `A`'s push pending (`triggerSync`
for A at t=0), a `triggerSync` for B at t=500 — inside A's quiet window —
leaves no pending entry for A, and running the timer to completion pushes
only B: A's most recent call in its window yields zero pushes for A, not
one. -/
theorem debounce_not_per_aggregate :
    (triggerSync (some "B") 500 (triggerSync (some "A") 0 sysC1)).deb.pending
        = some ("B", 1500) ∧
    (debounceFire 1500 (.ok 2)
        (debounceFire 1000 (.ok 2)
          (triggerSync (some "B") 500
            (triggerSync (some "A") 0 sysC1)))).pushLog = ["B"] := by
  decide

/-! ## Delete notification claim -/

/-- C8: a "row deleted" notification for a game present in local state is
ignored when the signed-in user is the game's author; when the author
differs, the game and the factories and solvers under its child ids are
removed from local state. -/
theorem handleRemoteDelete_ownership (s : SysState) (gameId : String)
    (game : GameRecord) (uid : String)
    (h : lookupA s.store.games gameId = some game)
    (hsess : s.session = some uid) :
    (game.authorId = uid → handleRemoteDelete gameId s = s) ∧
    (game.authorId ≠ uid →
      lookupA (handleRemoteDelete gameId s).store.games gameId = none ∧
      ∀ fid ∈ game.factoriesIds,
        lookupA (handleRemoteDelete gameId s).store.factories fid = none ∧
        lookupA (handleRemoteDelete gameId s).store.solvers fid = none) := by
  constructor
  · intro he
    simp only [handleRemoteDelete, h, hsess]
    rw [if_neg (fun hn => hn he)]
  · intro hne
    simp only [handleRemoteDelete, h, hsess]
    rw [if_pos hne]
    simp only [removeGame, h]
    refine ⟨lookupA_eraseA_self _ _, ?_⟩
    intro fid hf
    exact ⟨foldl_eraseA_mem _ _ fid hf, foldl_eraseA_mem _ _ fid hf⟩

/-- Witness for C8 at a concrete input: a non-author delete removes the game
and its children. -/
theorem handleRemoteDelete_ownership_witness :
    lookupA (handleRemoteDelete "g1" sysC8).store.games "g1" = none ∧
    lookupA (handleRemoteDelete "g1" sysC8).store.factories "f1" = none ∧
    lookupA (handleRemoteDelete "g1" sysC8).store.solvers "f1" = none := by
  have h := (handleRemoteDelete_ownership sysC8 "g1" lgC5 "u9"
    (by decide) rfl).2 (by decide)
  exact ⟨h.1, h.2 "f1" (by decide)⟩

/-! ## Session refresh scheduler claims -/

theorem authInv_timers_nil (s : AuthState) (h : authInv s) :
    (clearCurrentTimeout s).timers = [] := by
  rcases h with ⟨hlen, hall⟩
  cases hc : s.currentRef with
  | none =>
    cases ht : s.timers with
    | nil => simp [clearCurrentTimeout, hc, ht]
    | cons p t =>
      have hp := (hall p (by rw [ht]; exact List.mem_cons_self p t)).1
      rw [hc] at hp
      cases hp
  | some hdl =>
    simp only [clearCurrentTimeout, hc]
    rw [List.filter_eq_nil_iff]
    intro p hp
    have he := (hall p hp).1
    rw [hc] at he
    injection he with he
    simp [he]

theorem clearCurrentTimeout_nextId (s : AuthState) :
    (clearCurrentTimeout s).nextId = s.nextId := by
  cases hc : s.currentRef <;> simp [clearCurrentTimeout, hc]

theorem scheduleTokenRefresh_of_inv (s : AuthState) (now expiresAt : Nat)
    (h : authInv s) :
    scheduleTokenRefresh now expiresAt s =
      { timers := [(s.nextId, now * 1000 + refreshDelay now expiresAt)]
        currentRef := some s.nextId
        nextId := s.nextId + 1 } := by
  simp only [scheduleTokenRefresh]
  rw [authInv_timers_nil s h, clearCurrentTimeout_nextId]
  simp

theorem authInv_schedule (s : AuthState) (now expiresAt : Nat)
    (h : authInv s) : authInv (scheduleTokenRefresh now expiresAt s) := by
  rw [scheduleTokenRefresh_of_inv s now expiresAt h]
  constructor
  · simp
  · intro p hp
    rw [List.mem_singleton] at hp
    subst hp
    exact ⟨rfl, Nat.lt_succ_self _⟩

theorem authInv_clear (s : AuthState) (h : authInv s) :
    authInv (clearCurrentTimeout s) := by
  have ht := authInv_timers_nil s h
  refine ⟨by rw [ht]; simp, ?_⟩
  intro p hp
  rw [ht] at hp
  cases hp

theorem authInv_of_timers_nil (s : AuthState) (h : s.timers = []) :
    authInv s := by
  refine ⟨by rw [h]; simp, ?_⟩
  intro p hp
  rw [h] at hp
  cases hp

theorem authInv_fire (s : AuthState) (now hdl : Nat) (result : Option Nat)
    (h : authInv s) : authInv (fireRefresh now hdl result s) := by
  cases hf : s.timers.find? (fun p => p.1 == hdl) with
  | none => simpa [fireRefresh, hf] using h
  | some pd =>
    obtain ⟨h1, d⟩ := pd
    have hmem : (h1, d) ∈ s.timers := List.mem_of_find?_eq_some hf
    have hkey : h1 = hdl := by
      have := List.find?_some hf
      simpa using this
    have hall : ∀ p ∈ s.timers, p.1 = hdl := by
      intro p hp
      have e1 : s.currentRef = some p.1 := (h.2 p hp).1
      have e2 : s.currentRef = some h1 := (h.2 (h1, d) hmem).1
      rw [e1] at e2
      injection e2 with e2
      rw [e2, hkey]
    simp only [fireRefresh, hf]
    by_cases hd : d ≤ now * 1000
    · rw [if_pos hd]
      have hnil : ∀ t : AuthState,
          t = { s with timers := s.timers.filter (fun p => p.1 ≠ hdl) } →
          t.timers = [] := by
        intro t htt
        rw [htt]
        show s.timers.filter _ = []
        rw [List.filter_eq_nil_iff]
        intro p hp
        simp [hall p hp]
      cases result with
      | none => exact authInv_of_timers_nil _ (hnil _ rfl)
      | some newExp =>
        exact authInv_schedule _ now newExp
          (authInv_of_timers_nil _ (hnil _ rfl))
    · rw [if_neg hd]
      exact h

theorem authInv_step (s : AuthState) (e : AuthEvent) (h : authInv s) :
    authInv (authStep s e) := by
  cases e with
  | observe now expiresAt => exact authInv_schedule s now expiresAt h
  | fire now hdl result => exact authInv_fire s now hdl result h
  | signOut => exact authInv_clear s h

theorem authInv_init : authInv initAuth := by
  refine ⟨by simp [initAuth], ?_⟩
  intro p hp
  cases hp

theorem authInv_run (evs : List AuthEvent) (s : AuthState) (h : authInv s) :
    authInv (runAuth s evs) := by
  induction evs generalizing s with
  | nil => exact h
  | cons e t ih => exact ih (authStep s e) (authInv_step s e h)

/-- C7: observing a session with expiry `expiresAt` cancels the previous
refresh timeout and leaves exactly one timeout, due after
`max(0, (expiresAt − now)·1000 − REFRESH_MARGIN_MS)` ms with a 5-minute
margin; for `expiresAt = now + 3600` s the delay is 3300 s; in every
reachable scheduler state at most one refresh timeout is live; and after a
due timeout fires with a successful refresh, exactly one new timeout is
live and the old handle is gone — two refresh timers never coexist. -/
theorem scheduleTokenRefresh_spec :
    (∀ now : Nat, refreshDelay now (now + 3600) = 3300000) ∧
    (∀ (s : AuthState) (now expiresAt : Nat), authInv s →
      scheduleTokenRefresh now expiresAt s =
        { timers := [(s.nextId, now * 1000 + refreshDelay now expiresAt)]
          currentRef := some s.nextId
          nextId := s.nextId + 1 }) ∧
    (∀ evs : List AuthEvent, authInv (runAuth initAuth evs)) ∧
    (∀ (s : AuthState) (now hdl d newExp : Nat), authInv s →
      s.timers = [(hdl, d)] → d ≤ now * 1000 →
      (fireRefresh now hdl (some newExp) s).timers =
        [(s.nextId, now * 1000 + refreshDelay now newExp)] ∧
      hdl ∉ (fireRefresh now hdl (some newExp) s).timers.map Prod.fst) := by
  refine ⟨?_, ?_, ?_, ?_⟩
  · intro now
    simp only [refreshDelay, REFRESH_MARGIN_MS]
    have hc : (((now + 3600 : Nat) : Int) - (now : Int)) * 1000 -
        (5 * 60 * 1000 : Nat) = 3300000 := by
      push_cast
      ring
    rw [hc]
    rfl
  · intro s now expiresAt h
    exact scheduleTokenRefresh_of_inv s now expiresAt h
  · intro evs
    exact authInv_run evs initAuth authInv_init
  · intro s now hdl d newExp hinv ht hd
    have hfresh : hdl < s.nextId :=
      (hinv.2 (hdl, d) (by rw [ht]; exact List.mem_singleton_self _)).2
    have hinv2 : authInv { s with timers := ([] : List (Nat × Nat)) } :=
      ⟨by simp, by intro p hp; cases hp⟩
    have hstep : fireRefresh now hdl (some newExp) s =
        scheduleTokenRefresh now newExp { s with timers := [] } := by
      simp only [fireRefresh, ht]
      simp [hd, List.find?]
    rw [hstep, scheduleTokenRefresh_of_inv _ now newExp hinv2]
    refine ⟨rfl, ?_⟩
    simp
    omega

/-- Witness for C7 at a concrete input: scheduling from the initial state
yields exactly the one fresh timeout. -/
theorem scheduleTokenRefresh_spec_witness :
    scheduleTokenRefresh 100 4000 initAuth =
      { timers := [(0, 100 * 1000 + refreshDelay 100 4000)]
        currentRef := some 0
        nextId := 1 } :=
  scheduleTokenRefresh_spec.2.1 initAuth 100 4000 authInv_init

end SatisfactoryLogistics
